import Mathlib

/-!
Duplicate-download detector (`background.js`).

A shallow embedding of the three listeners of `src/background.js`
(`chrome.downloads.onCreated`, `chrome.downloads.onChanged`,
`chrome.runtime.onMessage`) over the two objects kept in `chrome.storage.sync`
(`pendingDownloads`, `downloadLinksTable`).

Modelling choices.
* A JavaScript object keyed by download id is an association list; `lookupKey`,
  `assign`, `deleteKey` and `objectValues` are `o[k]`, `o[k] = e`,
  `delete o[k]` and `Object.values(o)`.
* `chrome.storage.sync.get` always carries the default `{}` in the source, so
  an unset key reads as the empty object; the storage is the pair of objects
  that a read returns. Every `get` and `set` is served (the source never looks
  at `chrome.runtime.lastError` after a storage call), in the order of the calls.
* `computeHashForUrl` (SHA-256 of the locator, hex encoded) is a pure function
  of the locator; the digest itself belongs to `crypto.subtle` and is taken as
  a parameter.
* `console.log` calls are left out of the trace of effects; the trace holds the
  commands sent to `chrome.downloads` and the calls of `showAlertInActiveTab`.
-/

namespace Background

/-- Identifier that `chrome.downloads` gives a download (`downloadItem.id`). -/
abbrev DownloadId := Nat

/-- The value `{ url, hash }` kept under a download id (lines 135 and 167). -/
structure Entry where
  url : String
  hash : String
deriving DecidableEq, Repr

/-- A JavaScript object whose keys are download ids. -/
abbrev Table := List (DownloadId × Entry)

/-- Property read `o[k]`: `none` stands for `undefined`. -/
def lookupKey : Table → DownloadId → Option Entry
  | [], _ => none
  | (k', e) :: rest, k => if k' = k then some e else lookupKey rest k

/-- Property write `o[k] = e`: overwrites the value of an existing key, adds the key otherwise. -/
def assign : Table → DownloadId → Entry → Table
  | [], k, e => [(k, e)]
  | (k', e') :: rest, k, e => if k' = k then (k, e) :: rest else (k', e') :: assign rest k e

/-- Property removal `delete o[k]`. -/
def deleteKey : Table → DownloadId → Table
  | [], _ => []
  | (k', e') :: rest, k => if k' = k then deleteKey rest k else (k', e') :: deleteKey rest k

/-- The values `Object.values(o)`. -/
def objectValues (o : Table) : List Entry := o.map Prod.snd

/-- The two objects held in `chrome.storage.sync`. -/
structure Storage where
  pendingDownloads : Table
  downloadLinksTable : Table
deriving DecidableEq, Repr

/-- The fields of a `DownloadItem` that the `onCreated` listener reads (lines 93-94). -/
structure DownloadItem where
  id : DownloadId
  url : String
deriving DecidableEq, Repr

/-- The `state` field of a `DownloadDelta`: `{ previous?, current? }`. -/
structure StringDelta where
  previous : Option String
  current : Option String
deriving DecidableEq, Repr

/-- The fields of a `DownloadDelta` that the `onChanged` listener reads (lines 147-150). -/
structure DownloadDelta where
  id : DownloadId
  state : Option StringDelta
deriving DecidableEq, Repr

/-- A message of the content script: `{ action, downloadId }` (lines 61 and 70). -/
structure Message where
  action : Option String
  downloadId : DownloadId
deriving DecidableEq, Repr

/-- What the listeners send out: the three `chrome.downloads` commands and the call of
`showAlertInActiveTab`, which asks the user for a decision. -/
inductive Effect where
  | pause (downloadId : DownloadId)
  | cancel (downloadId : DownloadId)
  | resume (downloadId : DownloadId)
  | showAlertInActiveTab (downloadId : DownloadId) (downloadUrl : String)
deriving DecidableEq, Repr

/-- Line 103: `Object.values(downloadLinksTable).some(entry => entry.url === downloadUrl)`. -/
def urlExists (downloadLinksTable : Table) (downloadUrl : String) : Bool :=
  (objectValues downloadLinksTable).any (fun entry => decide (entry.url = downloadUrl))

/-- Line 118: `Object.values(downloadLinksTable).some(entry => entry.hash === hash)`. -/
def hashExists (downloadLinksTable : Table) (hash : String) : Bool :=
  (objectValues downloadLinksTable).any (fun entry => decide (entry.hash = hash))

/-- The callback given to `chrome.downloads.pause` (lines 107-114 and 122-129): with
`chrome.runtime.lastError` set it only logs, otherwise it calls `showAlertInActiveTab`. -/
def pauseCallback (lastError : Bool) (downloadId : DownloadId) (downloadUrl : String) :
    List Effect :=
  if lastError then [] else [Effect.showAlertInActiveTab downloadId downloadUrl]

/-- Lines 105-115, the exact-locator check: the pause command and what its callback does. -/
def urlCheck (lastError : Bool) (downloadLinksTable : Table) (downloadId : DownloadId)
    (downloadUrl : String) : List Effect :=
  if urlExists downloadLinksTable downloadUrl then
    Effect.pause downloadId :: pauseCallback lastError downloadId downloadUrl
  else []

/-- Lines 120-130, the fingerprint check, guarded by `!urlExists && hashExists`. -/
def hashCheck (lastError : Bool) (downloadLinksTable : Table) (downloadId : DownloadId)
    (downloadUrl hash : String) : List Effect :=
  if !urlExists downloadLinksTable downloadUrl && hashExists downloadLinksTable hash then
    Effect.pause downloadId :: pauseCallback lastError downloadId downloadUrl
  else []

/-- The `onCreated` listener (lines 92-143) run to the end of its chain of callbacks, with no
other listener in between. `lastError` is the outcome of the pause command when one is sent. -/
def onCreated (computeHashForUrl : String → String) (lastError : Bool)
    (downloadItem : DownloadItem) (s : Storage) : Storage × List Effect :=
  let downloadId := downloadItem.id
  let downloadUrl := downloadItem.url
  let hash := computeHashForUrl downloadUrl
  let downloadLinksTable := s.downloadLinksTable
  let flagged := urlCheck lastError downloadLinksTable downloadId downloadUrl
    ++ hashCheck lastError downloadLinksTable downloadId downloadUrl hash
  let pendingDownloads := assign s.pendingDownloads downloadId { url := downloadUrl, hash := hash }
  ({ s with pendingDownloads := pendingDownloads }, flagged)

/-- The `onChanged` listener (lines 146-193) run to the end of its chain of callbacks. -/
def onChanged (downloadDelta : DownloadDelta) (s : Storage) : Storage × List Effect :=
  let downloadId := downloadDelta.id
  match downloadDelta.state with
  | none => (s, [])
  | some state =>
    if state.current = some "complete" then
      match lookupKey s.pendingDownloads downloadId with
      | some downloadData =>
        ({ pendingDownloads := deleteKey s.pendingDownloads downloadId,
           downloadLinksTable := assign s.downloadLinksTable downloadId
             { url := downloadData.url, hash := downloadData.hash } }, [])
      | none => (s, [])
    else if state.current = some "interrupted" then
      match lookupKey s.pendingDownloads downloadId with
      | some _ => ({ s with pendingDownloads := deleteKey s.pendingDownloads downloadId }, [])
      | none => (s, [])
    else (s, [])

/-- The `onMessage` listener (lines 196-206). -/
def onMessage (message : Message) (s : Storage) : Storage × List Effect :=
  if message.action = some "cancelDownload" then
    (s, [Effect.cancel message.downloadId])
  else if message.action = some "continueDownload" then
    (s, [Effect.resume message.downloadId])
  else (s, [])

/-! ## The listeners as callbacks on the event loop

The listeners above are chains of callbacks: the promise of `computeHashForUrl`, the
callbacks of `chrome.storage.sync.get` and `set`, and the callback of
`chrome.downloads.pause`. Each callback runs to its end before the next one starts; another
listener may run between two callbacks of a chain. -/

/-- A call of `chrome.storage.sync` that has been made and not yet served, with what its
callback needs. -/
inductive Request where
  /-- Line 99, `get({ downloadLinksTable: {} }, ...)` in `onCreated`. -/
  | getLinksCreated (downloadId : DownloadId) (downloadUrl hash : String)
  /-- Line 133, `get({ pendingDownloads: {} }, ...)` in `onCreated`. -/
  | getPendingCreated (downloadId : DownloadId) (downloadUrl hash : String)
  /-- Lines 137, 161 and 186, `set({ pendingDownloads: pendingDownloads }, ...)`. -/
  | setPending (pendingDownloads : Table)
  /-- Line 152, `get({ pendingDownloads: {} }, ...)` in the "complete" branch. -/
  | getPendingComplete (downloadId : DownloadId)
  /-- Line 165, `get({ downloadLinksTable: {} }, ...)` in the "complete" branch. -/
  | getLinksComplete (downloadId : DownloadId) (url hash : String)
  /-- Line 169, `set({ downloadLinksTable: downloadLinksTable }, ...)`. -/
  | setLinks (downloadLinksTable : Table)
  /-- Line 177, `get({ pendingDownloads: {} }, ...)` in the "interrupted" branch. -/
  | getPendingInterrupted (downloadId : DownloadId)
deriving DecidableEq, Repr

/-- The extension between two callbacks: the storage, the promises of `computeHashForUrl`
that are not resolved yet, the storage calls not served yet (oldest first), the pause
commands whose callback has not run yet, and the effects so far. -/
structure Config where
  storage : Storage
  hashing : List DownloadItem
  requests : List Request
  pausing : List (DownloadId × String)
  trace : List Effect
deriving DecidableEq, Repr

/-- What happens next on the event loop. -/
inductive Action where
  /-- The browser fires `chrome.downloads.onCreated`. -/
  | created (downloadItem : DownloadItem)
  /-- The browser fires `chrome.downloads.onChanged`. -/
  | changed (downloadDelta : DownloadDelta)
  /-- The content script sends a message. -/
  | message (message : Message)
  /-- The oldest promise of `computeHashForUrl` resolves and its `then` callback runs. -/
  | hashResolved
  /-- The oldest storage call is served and its callback runs. -/
  | storageServed
  /-- The oldest pause command returns, with `chrome.runtime.lastError` set or not. -/
  | pauseReturned (lastError : Bool)
deriving DecidableEq, Repr

/-- A configuration with nothing in flight. -/
def idle (s : Storage) (trace : List Effect) : Config :=
  { storage := s, hashing := [], requests := [], pausing := [], trace := trace }

/-- The callback of one storage call, on the storage as it is when the call is served. -/
def serve (c : Config) (rest : List Request) : Request → Config
  | Request.getLinksCreated downloadId downloadUrl hash =>
    let downloadLinksTable := c.storage.downloadLinksTable
    let first := urlExists downloadLinksTable downloadUrl
    let second := !urlExists downloadLinksTable downloadUrl && hashExists downloadLinksTable hash
    let paused : List (DownloadId × String) :=
      (if first then [(downloadId, downloadUrl)] else [])
        ++ (if second then [(downloadId, downloadUrl)] else [])
    { c with
      requests := rest ++ [Request.getPendingCreated downloadId downloadUrl hash]
      pausing := c.pausing ++ paused
      trace := c.trace ++ paused.map (fun p => Effect.pause p.1) }
  | Request.getPendingCreated downloadId downloadUrl hash =>
    let pendingDownloads :=
      assign c.storage.pendingDownloads downloadId { url := downloadUrl, hash := hash }
    { c with requests := rest ++ [Request.setPending pendingDownloads] }
  | Request.setPending pendingDownloads =>
    { c with storage := { c.storage with pendingDownloads := pendingDownloads }, requests := rest }
  | Request.getPendingComplete downloadId =>
    match lookupKey c.storage.pendingDownloads downloadId with
    | some downloadData =>
      { c with
        requests := rest ++
          [Request.setPending (deleteKey c.storage.pendingDownloads downloadId),
           Request.getLinksComplete downloadId downloadData.url downloadData.hash] }
    | none => { c with requests := rest }
  | Request.getLinksComplete downloadId url hash =>
    { c with
      requests := rest ++
        [Request.setLinks (assign c.storage.downloadLinksTable downloadId
          { url := url, hash := hash })] }
  | Request.setLinks downloadLinksTable =>
    { c with
      storage := { c.storage with downloadLinksTable := downloadLinksTable }, requests := rest }
  | Request.getPendingInterrupted downloadId =>
    match lookupKey c.storage.pendingDownloads downloadId with
    | some _ =>
      { c with
        requests := rest ++
          [Request.setPending (deleteKey c.storage.pendingDownloads downloadId)] }
    | none => { c with requests := rest }

/-- One turn of the event loop. An action on an empty queue does nothing. -/
def step (computeHashForUrl : String → String) (c : Config) : Action → Config
  | Action.created downloadItem => { c with hashing := c.hashing ++ [downloadItem] }
  | Action.changed downloadDelta =>
    match downloadDelta.state with
    | none => c
    | some state =>
      if state.current = some "complete" then
        { c with requests := c.requests ++ [Request.getPendingComplete downloadDelta.id] }
      else if state.current = some "interrupted" then
        { c with requests := c.requests ++ [Request.getPendingInterrupted downloadDelta.id] }
      else c
  | Action.message message => { c with trace := c.trace ++ (onMessage message c.storage).2 }
  | Action.hashResolved =>
    match c.hashing with
    | [] => c
    | downloadItem :: rest =>
      { c with
        hashing := rest
        requests := c.requests ++
          [Request.getLinksCreated downloadItem.id downloadItem.url
            (computeHashForUrl downloadItem.url)] }
  | Action.storageServed =>
    match c.requests with
    | [] => c
    | request :: rest => serve c rest request
  | Action.pauseReturned lastError =>
    match c.pausing with
    | [] => c
    | (downloadId, downloadUrl) :: rest =>
      { c with
        pausing := rest
        trace := c.trace ++ pauseCallback lastError downloadId downloadUrl }

/-- A sequence of turns of the event loop. -/
def run (computeHashForUrl : String → String) (c : Config) (actions : List Action) : Config :=
  actions.foldl (step computeHashForUrl) c

/-- The turns that take one `onCreated` chain from its start to its end when nothing else
happens: the hash, the three storage calls, the callback of the pause command. -/
def createdChain (downloadItem : DownloadItem) (lastError : Bool) : List Action :=
  [Action.created downloadItem, Action.hashResolved, Action.storageServed,
   Action.storageServed, Action.storageServed, Action.pauseReturned lastError]

/-- The turns that take one `onChanged` chain from its start to its end when nothing else
happens: at most four storage calls. -/
def changedChain (downloadDelta : DownloadDelta) : List Action :=
  [Action.changed downloadDelta, Action.storageServed, Action.storageServed,
   Action.storageServed, Action.storageServed]

/-- A state change that is delivered after `k` of the turns of a running `onCreated` chain:
the chain starts, `k` of its turns run, `onChanged` fires, and the event loop runs until
nothing is left in flight. -/
def changedDuringCreated (downloadItem : DownloadItem) (downloadDelta : DownloadDelta)
    (lastError : Bool) (k : Nat) : List Action :=
  let chain := [Action.hashResolved, Action.storageServed, Action.storageServed,
    Action.storageServed]
  [Action.created downloadItem] ++ chain.take k ++ [Action.changed downloadDelta]
    ++ chain.drop k
    ++ [Action.storageServed, Action.storageServed, Action.storageServed,
        Action.storageServed, Action.pauseReturned lastError]

/-- One event as the extension receives it, for the listeners run to their end: a created
download with the outcome of the pause command (should one be sent), a state change, or a
message of the content script. -/
inductive Event where
  | created (downloadItem : DownloadItem) (lastError : Bool)
  | changed (downloadDelta : DownloadDelta)
  | message (message : Message)
deriving DecidableEq, Repr

/-- The listener of an event, run to the end of its chain of callbacks. -/
def reconcile (computeHashForUrl : String → String) : Event → Storage → Storage × List Effect
  | Event.created downloadItem lastError, s =>
    onCreated computeHashForUrl lastError downloadItem s
  | Event.changed downloadDelta, s => onChanged downloadDelta s
  | Event.message message, s => onMessage message s

/-! ## Objects: reads after writes -/

theorem lookupKey_assign_self (t : Table) (k : DownloadId) (e : Entry) :
    lookupKey (assign t k e) k = some e := by
  induction t with
  | nil => simp [assign, lookupKey]
  | cons p rest ih =>
    obtain ⟨k', e'⟩ := p
    by_cases h : k' = k
    · simp [assign, lookupKey, h]
    · simp [assign, lookupKey, h, ih]

theorem lookupKey_assign_ne (t : Table) (k k' : DownloadId) (e : Entry) (hne : k' ≠ k) :
    lookupKey (assign t k e) k' = lookupKey t k' := by
  induction t with
  | nil => simp [assign, lookupKey, Ne.symm hne]
  | cons p rest ih =>
    obtain ⟨k0, e0⟩ := p
    by_cases h : k0 = k
    · subst h
      simp [assign, lookupKey, Ne.symm hne]
    · by_cases h' : k0 = k'
      · subst h'
        simp [assign, lookupKey, h]
      · simp [assign, lookupKey, h, h', ih]

theorem lookupKey_deleteKey_self (t : Table) (k : DownloadId) :
    lookupKey (deleteKey t k) k = none := by
  induction t with
  | nil => simp [deleteKey, lookupKey]
  | cons p rest ih =>
    obtain ⟨k', e'⟩ := p
    by_cases h : k' = k
    · simp [deleteKey, h, ih]
    · simp [deleteKey, lookupKey, h, ih]

theorem lookupKey_deleteKey_ne (t : Table) (k k' : DownloadId) (hne : k' ≠ k) :
    lookupKey (deleteKey t k) k' = lookupKey t k' := by
  induction t with
  | nil => simp [deleteKey, lookupKey]
  | cons p rest ih =>
    obtain ⟨k0, e0⟩ := p
    by_cases h : k0 = k
    · subst h
      simp [deleteKey, lookupKey, Ne.symm hne, ih]
    · by_cases h' : k0 = k'
      · subst h'
        simp [deleteKey, lookupKey, h]
      · simp [deleteKey, lookupKey, h, h', ih]

theorem deleteKey_of_absent (t : Table) (k : DownloadId) (h : lookupKey t k = none) :
    deleteKey t k = t := by
  induction t with
  | nil => simp [deleteKey]
  | cons p rest ih =>
    obtain ⟨k', e'⟩ := p
    by_cases hk : k' = k
    · simp [lookupKey, hk] at h
    · simp only [lookupKey, hk, if_false] at h
      simp [deleteKey, hk, ih h]

theorem deleteKey_assign (t : Table) (k : DownloadId) (e : Entry) :
    deleteKey (assign t k e) k = deleteKey t k := by
  induction t with
  | nil => simp [assign, deleteKey]
  | cons p rest ih =>
    obtain ⟨k', e'⟩ := p
    by_cases hk : k' = k
    · simp [assign, deleteKey, hk]
    · simp [assign, deleteKey, hk, ih]

theorem assign_of_absent (t : Table) (k : DownloadId) (e : Entry)
    (h : lookupKey t k = none) : assign t k e = t ++ [(k, e)] := by
  induction t with
  | nil => simp [assign]
  | cons p rest ih =>
    obtain ⟨k', e'⟩ := p
    by_cases hk : k' = k
    · simp [lookupKey, hk] at h
    · simp only [lookupKey, hk, if_false] at h
      simp [assign, hk, ih h]

theorem mem_keys_assign (t : Table) (k k' : DownloadId) (e : Entry) :
    k' ∈ (assign t k e).map Prod.fst ↔ k' = k ∨ k' ∈ t.map Prod.fst := by
  induction t with
  | nil => simp [assign]
  | cons p rest ih =>
    obtain ⟨k0, e0⟩ := p
    by_cases h : k0 = k
    · subst h
      simp [assign]
    · simp only [assign, h, if_false, List.map_cons, List.mem_cons, ih]
      tauto

/-- An object has each key once, and `o[k] = e` keeps it so. -/
theorem nodup_keys_assign (t : Table) (k : DownloadId) (e : Entry)
    (h : (t.map Prod.fst).Nodup) : ((assign t k e).map Prod.fst).Nodup := by
  induction t with
  | nil => simp [assign]
  | cons p rest ih =>
    obtain ⟨k0, e0⟩ := p
    simp only [List.map_cons, List.nodup_cons] at h
    by_cases hk : k0 = k
    · subst hk
      simpa [assign] using h
    · simp only [assign, hk, if_false, List.map_cons, List.nodup_cons]
      refine ⟨fun hmem => ?_, ih h.2⟩
      rcases (mem_keys_assign rest k k0 e).1 hmem with h0 | h0
      · exact hk h0
      · exact h.1 h0

/-- An object has each key once, and `delete o[k]` keeps it so. -/
theorem nodup_keys_deleteKey (t : Table) (k : DownloadId)
    (h : (t.map Prod.fst).Nodup) : ((deleteKey t k).map Prod.fst).Nodup := by
  have hfilter : deleteKey t k = t.filter (fun p => decide (p.1 ≠ k)) := by
    induction t with
    | nil => rfl
    | cons p rest ih =>
      obtain ⟨k0, e0⟩ := p
      simp only [List.map_cons, List.nodup_cons] at h
      by_cases hk : k0 = k
      · simp [deleteKey, hk, ih h.2]
      · simp [deleteKey, hk, ih h.2]
  rw [hfilter]
  exact (h.sublist ((List.filter_sublist t).map Prod.fst))

theorem urlExists_iff (t : Table) (downloadUrl : String) :
    urlExists t downloadUrl = true ↔ ∃ entry ∈ objectValues t, entry.url = downloadUrl := by
  simp [urlExists]

theorem hashExists_iff (t : Table) (hash : String) :
    hashExists t hash = true ↔ ∃ entry ∈ objectValues t, entry.hash = hash := by
  simp [hashExists]

/-! ## The chains of callbacks, run alone, are the listeners -/

theorem run_createdChain (computeHashForUrl : String → String) (lastError : Bool)
    (downloadItem : DownloadItem) (s : Storage) (trace : List Effect) :
    run computeHashForUrl (idle s trace) (createdChain downloadItem lastError)
      = idle (onCreated computeHashForUrl lastError downloadItem s).1
          (trace ++ (onCreated computeHashForUrl lastError downloadItem s).2) := by
  cases hu : urlExists s.downloadLinksTable downloadItem.url <;>
  cases hh : hashExists s.downloadLinksTable (computeHashForUrl downloadItem.url) <;>
  simp [run, createdChain, idle, step, serve, onCreated, urlCheck, hashCheck, hu, hh]

theorem run_changedChain (computeHashForUrl : String → String)
    (downloadDelta : DownloadDelta) (s : Storage) (trace : List Effect) :
    run computeHashForUrl (idle s trace) (changedChain downloadDelta)
      = idle (onChanged downloadDelta s).1 (trace ++ (onChanged downloadDelta s).2) := by
  obtain ⟨d, state⟩ := downloadDelta
  cases state with
  | none => simp [run, changedChain, idle, step, onChanged]
  | some st =>
    by_cases h1 : st.current = some "complete"
    · cases hl : lookupKey s.pendingDownloads d <;>
      simp [run, changedChain, idle, step, serve, onChanged, h1, hl]
    · by_cases h2 : st.current = some "interrupted"
      · cases hl : lookupKey s.pendingDownloads d <;>
        simp [run, changedChain, idle, step, serve, onChanged, h1, h2, hl]
      · simp [run, changedChain, idle, step, onChanged, h1, h2]

/-! ## Creation followed by a terminal state change -/

/-- C1. For a download id `d` with no entry in `pendingDownloads` and none in
`downloadLinksTable`, `onCreated` for `(d, L)` run to its end and then `onChanged` for
`(d, "complete")` give a `downloadLinksTable` that maps `d` to `{ url: L, hash: hash(L) }`
and is otherwise as before (it is the old table with that one entry added), and a
`pendingDownloads` with no entry for `d` (it is the old object). The same storage is what
the two chains of callbacks leave on the event loop when run one after the other. -/
theorem created_then_complete (computeHashForUrl : String → String) (lastError : Bool)
    (s : Storage) (d : DownloadId) (L : String) (previous : Option String)
    (hp : lookupKey s.pendingDownloads d = none)
    (hl : lookupKey s.downloadLinksTable d = none) :
    let delta : DownloadDelta := ⟨d, some ⟨previous, some "complete"⟩⟩
    let s' := (onChanged delta (onCreated computeHashForUrl lastError ⟨d, L⟩ s).1).1
    lookupKey s'.downloadLinksTable d = some ⟨L, computeHashForUrl L⟩
      ∧ (∀ k, k ≠ d → lookupKey s'.downloadLinksTable k = lookupKey s.downloadLinksTable k)
      ∧ s'.downloadLinksTable = s.downloadLinksTable ++ [(d, ⟨L, computeHashForUrl L⟩)]
      ∧ lookupKey s'.pendingDownloads d = none
      ∧ s'.pendingDownloads = s.pendingDownloads
      ∧ (run computeHashForUrl (idle s [])
          (createdChain ⟨d, L⟩ lastError ++ changedChain delta)).storage = s' := by
  intro delta s'
  have hs' : s' = ⟨s.pendingDownloads,
      assign s.downloadLinksTable d ⟨L, computeHashForUrl L⟩⟩ := by
    simp [s', delta, onChanged, onCreated, lookupKey_assign_self, deleteKey_assign,
      deleteKey_of_absent _ _ hp]
  have hrun : (run computeHashForUrl (idle s [])
      (createdChain ⟨d, L⟩ lastError ++ changedChain delta)).storage = s' := by
    rw [run, List.foldl_append]
    have h1 := run_createdChain computeHashForUrl lastError ⟨d, L⟩ s []
    have h2 := run_changedChain computeHashForUrl delta
      (onCreated computeHashForUrl lastError ⟨d, L⟩ s).1
      ([] ++ (onCreated computeHashForUrl lastError ⟨d, L⟩ s).2)
    rw [run] at h1 h2
    rw [h1, h2]
    rfl
  refine ⟨?_, ?_, ?_, ?_, ?_, hrun⟩
  · rw [hs']; exact lookupKey_assign_self _ _ _
  · intro k hk; rw [hs']; exact lookupKey_assign_ne _ _ _ _ hk
  · rw [hs']; exact assign_of_absent _ _ _ hl
  · rw [hs']; exact hp
  · rw [hs']

/-- Witness of C1: the empty storage, download 1 from "https://x/a.bin". -/
theorem created_then_complete_witness :
    lookupKey (Storage.mk [] []).pendingDownloads 1 = none
      ∧ lookupKey (Storage.mk [] []).downloadLinksTable 1 = none
      ∧ (onChanged ⟨1, some ⟨none, some "complete"⟩⟩
          (onCreated (fun u => "#" ++ u) false ⟨1, "https://x/a.bin"⟩
            (Storage.mk [] [])).1).1.downloadLinksTable
        = [(1, ⟨"https://x/a.bin", "#https://x/a.bin"⟩)] :=
  ⟨rfl, rfl,
    (created_then_complete (fun u => "#" ++ u) false (Storage.mk [] []) 1 "https://x/a.bin"
      none rfl rfl).2.2.1⟩

/-- C2. For every storage, download id `d` and locator `L`, `onCreated` for `(d, L)` run to
its end and then `onChanged` for `(d, "interrupted")` leave `downloadLinksTable` as it was
and `pendingDownloads` with no entry for `d`, the other ids of `pendingDownloads` keeping
their entries. The same storage is what the two chains of callbacks leave on the event loop
when run one after the other. -/
theorem created_then_interrupted (computeHashForUrl : String → String) (lastError : Bool)
    (s : Storage) (d : DownloadId) (L : String) (previous : Option String) :
    (onChanged ⟨d, some ⟨previous, some "interrupted"⟩⟩
        (onCreated computeHashForUrl lastError ⟨d, L⟩ s).1).1.downloadLinksTable
        = s.downloadLinksTable
      ∧ lookupKey (onChanged ⟨d, some ⟨previous, some "interrupted"⟩⟩
          (onCreated computeHashForUrl lastError ⟨d, L⟩ s).1).1.pendingDownloads d = none
      ∧ (∀ k, k ≠ d →
          lookupKey (onChanged ⟨d, some ⟨previous, some "interrupted"⟩⟩
            (onCreated computeHashForUrl lastError ⟨d, L⟩ s).1).1.pendingDownloads k
          = lookupKey s.pendingDownloads k)
      ∧ (run computeHashForUrl (idle s [])
          (createdChain ⟨d, L⟩ lastError
            ++ changedChain ⟨d, some ⟨previous, some "interrupted"⟩⟩)).storage
        = (onChanged ⟨d, some ⟨previous, some "interrupted"⟩⟩
            (onCreated computeHashForUrl lastError ⟨d, L⟩ s).1).1 := by
  have hs' : (onChanged ⟨d, some ⟨previous, some "interrupted"⟩⟩
      (onCreated computeHashForUrl lastError ⟨d, L⟩ s).1).1
      = ⟨deleteKey s.pendingDownloads d, s.downloadLinksTable⟩ := by
    simp [onChanged, onCreated, lookupKey_assign_self, deleteKey_assign]
  refine ⟨?_, ?_, ?_, ?_⟩
  · rw [hs']
  · rw [hs']; exact lookupKey_deleteKey_self _ _
  · intro k hk; rw [hs']; exact lookupKey_deleteKey_ne _ _ _ hk
  · rw [run, List.foldl_append]
    have h1 := run_createdChain computeHashForUrl lastError ⟨d, L⟩ s []
    have h2 := run_changedChain computeHashForUrl ⟨d, some ⟨previous, some "interrupted"⟩⟩
      (onCreated computeHashForUrl lastError ⟨d, L⟩ s).1
      ([] ++ (onCreated computeHashForUrl lastError ⟨d, L⟩ s).2)
    rw [run] at h1 h2
    rw [h1, h2]
    rfl

/-! ## Flagging a duplicate -/

/-- C3. When some entry of `downloadLinksTable` has the url `L`, `onCreated` for `(d, L)`
sends exactly one pause command for `d`, from the exact-locator check, followed by exactly
one call of `showAlertInActiveTab` for `(d, L)` when the pause succeeds and by nothing when
it fails; the fingerprint check sends nothing, whatever hashes the table holds. The trace
of the chain of callbacks on the event loop is the same. -/
theorem exact_locator_flags_once (computeHashForUrl : String → String) (lastError : Bool)
    (s : Storage) (d : DownloadId) (L : String)
    (hurl : ∃ entry ∈ objectValues s.downloadLinksTable, entry.url = L) :
    urlCheck lastError s.downloadLinksTable d L
        = (if lastError then [Effect.pause d]
           else [Effect.pause d, Effect.showAlertInActiveTab d L])
      ∧ hashCheck lastError s.downloadLinksTable d L (computeHashForUrl L) = []
      ∧ (onCreated computeHashForUrl lastError ⟨d, L⟩ s).2
        = (if lastError then [Effect.pause d]
           else [Effect.pause d, Effect.showAlertInActiveTab d L])
      ∧ (run computeHashForUrl (idle s []) (createdChain ⟨d, L⟩ lastError)).trace
        = (if lastError then [Effect.pause d]
           else [Effect.pause d, Effect.showAlertInActiveTab d L]) := by
  have hu : urlExists s.downloadLinksTable L = true := (urlExists_iff _ _).2 hurl
  have h1 : urlCheck lastError s.downloadLinksTable d L
      = (if lastError then [Effect.pause d]
         else [Effect.pause d, Effect.showAlertInActiveTab d L]) := by
    cases lastError <;> simp [urlCheck, pauseCallback, hu]
  have h2 : hashCheck lastError s.downloadLinksTable d L (computeHashForUrl L) = [] := by
    simp [hashCheck, hu]
  have h3 : (onCreated computeHashForUrl lastError ⟨d, L⟩ s).2
      = (if lastError then [Effect.pause d]
         else [Effect.pause d, Effect.showAlertInActiveTab d L]) := by
    simp only [onCreated, h1, h2, List.append_nil]
  refine ⟨h1, h2, h3, ?_⟩
  rw [run_createdChain, ← h3]
  rfl

/-- Witness of C3: the table holds "https://x/a.bin" under id 1, download 2 has the same
url. -/
theorem exact_locator_flags_once_witness :
    (∃ entry ∈ objectValues
        (Storage.mk [] [(1, ⟨"https://x/a.bin", "#https://x/a.bin"⟩)]).downloadLinksTable,
        entry.url = "https://x/a.bin")
      ∧ (onCreated (fun u => "#" ++ u) false ⟨2, "https://x/a.bin"⟩
          (Storage.mk [] [(1, ⟨"https://x/a.bin", "#https://x/a.bin"⟩)])).2
        = [Effect.pause 2, Effect.showAlertInActiveTab 2 "https://x/a.bin"] :=
  ⟨⟨⟨"https://x/a.bin", "#https://x/a.bin"⟩, by simp [objectValues], rfl⟩,
    (exact_locator_flags_once (fun u => "#" ++ u) false
      (Storage.mk [] [(1, ⟨"https://x/a.bin", "#https://x/a.bin"⟩)]) 2 "https://x/a.bin"
      ⟨⟨"https://x/a.bin", "#https://x/a.bin"⟩, by simp [objectValues], rfl⟩).2.2.1⟩

/-- C4. When no entry of `downloadLinksTable` has the url `L` and some entry has the hash
`hash(L)`, `onCreated` for `(d, L)` flags the download through the fingerprint check: the
exact-locator check sends nothing, and the fingerprint check sends one pause command for
`d`, followed by one call of `showAlertInActiveTab` for `(d, L)` when the pause succeeds.
The trace of the chain of callbacks on the event loop is the same. -/
theorem fingerprint_flags (computeHashForUrl : String → String) (lastError : Bool)
    (s : Storage) (d : DownloadId) (L : String)
    (hurl : ∀ entry ∈ objectValues s.downloadLinksTable, entry.url ≠ L)
    (hhash : ∃ entry ∈ objectValues s.downloadLinksTable, entry.hash = computeHashForUrl L) :
    urlCheck lastError s.downloadLinksTable d L = []
      ∧ hashCheck lastError s.downloadLinksTable d L (computeHashForUrl L)
        = (if lastError then [Effect.pause d]
           else [Effect.pause d, Effect.showAlertInActiveTab d L])
      ∧ (onCreated computeHashForUrl lastError ⟨d, L⟩ s).2
        = (if lastError then [Effect.pause d]
           else [Effect.pause d, Effect.showAlertInActiveTab d L])
      ∧ (run computeHashForUrl (idle s []) (createdChain ⟨d, L⟩ lastError)).trace
        = (if lastError then [Effect.pause d]
           else [Effect.pause d, Effect.showAlertInActiveTab d L]) := by
  have hu : urlExists s.downloadLinksTable L = false := by
    cases h : urlExists s.downloadLinksTable L
    · rfl
    · obtain ⟨entry, hmem, he⟩ := (urlExists_iff _ _).1 h
      exact absurd he (hurl entry hmem)
  have hh : hashExists s.downloadLinksTable (computeHashForUrl L) = true :=
    (hashExists_iff _ _).2 hhash
  have h1 : urlCheck lastError s.downloadLinksTable d L = [] := by
    simp [urlCheck, hu]
  have h2 : hashCheck lastError s.downloadLinksTable d L (computeHashForUrl L)
      = (if lastError then [Effect.pause d]
         else [Effect.pause d, Effect.showAlertInActiveTab d L]) := by
    cases lastError <;> simp [hashCheck, pauseCallback, hu, hh]
  have h3 : (onCreated computeHashForUrl lastError ⟨d, L⟩ s).2
      = (if lastError then [Effect.pause d]
         else [Effect.pause d, Effect.showAlertInActiveTab d L]) := by
    simp only [onCreated, h1, h2, List.nil_append]
  refine ⟨h1, h2, h3, ?_⟩
  rw [run_createdChain, ← h3]
  rfl

/-- Witness of C4: a hash function that keeps the first two characters, so that
"https://x/a.bin" and "https://y/b.bin" collide. -/
theorem fingerprint_flags_witness :
    (∀ entry ∈ objectValues (Storage.mk [] [(1, ⟨"https://x/a.bin", "ht"⟩)]).downloadLinksTable,
        entry.url ≠ "https://y/b.bin")
      ∧ (∃ entry ∈ objectValues
          (Storage.mk [] [(1, ⟨"https://x/a.bin", "ht"⟩)]).downloadLinksTable,
          entry.hash = (fun u : String => u.take 2) "https://y/b.bin")
      ∧ (onCreated (fun u => u.take 2) false ⟨3, "https://y/b.bin"⟩
          (Storage.mk [] [(1, ⟨"https://x/a.bin", "ht"⟩)])).2
        = [Effect.pause 3, Effect.showAlertInActiveTab 3 "https://y/b.bin"] :=
  ⟨by simp [objectValues], ⟨⟨"https://x/a.bin", "ht"⟩, by simp [objectValues], by decide⟩,
    (fingerprint_flags (fun u => u.take 2) false
      (Storage.mk [] [(1, ⟨"https://x/a.bin", "ht"⟩)]) 3 "https://y/b.bin"
      (by simp [objectValues])
      ⟨⟨"https://x/a.bin", "ht"⟩, by simp [objectValues], by decide⟩).2.2.1⟩

/-- C10. When no entry of `downloadLinksTable` has the url `L` and none has the hash
`hash(L)` (so for the empty table), `onCreated` for `(d, L)` sends no pause command and
makes no call of `showAlertInActiveTab`: neither check sends anything, and the listener
only writes `d` into `pendingDownloads`. On the event loop the chain of callbacks leaves
nothing in flight, an empty trace, and the same storage. -/
theorem no_false_flag (computeHashForUrl : String → String) (lastError : Bool)
    (s : Storage) (d : DownloadId) (L : String)
    (hurl : ∀ entry ∈ objectValues s.downloadLinksTable, entry.url ≠ L)
    (hhash : ∀ entry ∈ objectValues s.downloadLinksTable, entry.hash ≠ computeHashForUrl L) :
    urlCheck lastError s.downloadLinksTable d L = []
      ∧ hashCheck lastError s.downloadLinksTable d L (computeHashForUrl L) = []
      ∧ onCreated computeHashForUrl lastError ⟨d, L⟩ s
        = (⟨assign s.pendingDownloads d ⟨L, computeHashForUrl L⟩, s.downloadLinksTable⟩, [])
      ∧ run computeHashForUrl (idle s []) (createdChain ⟨d, L⟩ lastError)
        = idle ⟨assign s.pendingDownloads d ⟨L, computeHashForUrl L⟩, s.downloadLinksTable⟩
            [] := by
  have hu : urlExists s.downloadLinksTable L = false := by
    cases h : urlExists s.downloadLinksTable L
    · rfl
    · obtain ⟨entry, hmem, he⟩ := (urlExists_iff _ _).1 h
      exact absurd he (hurl entry hmem)
  have hh : hashExists s.downloadLinksTable (computeHashForUrl L) = false := by
    cases h : hashExists s.downloadLinksTable (computeHashForUrl L)
    · rfl
    · obtain ⟨entry, hmem, he⟩ := (hashExists_iff _ _).1 h
      exact absurd he (hhash entry hmem)
  have h1 : urlCheck lastError s.downloadLinksTable d L = [] := by
    simp [urlCheck, hu]
  have h2 : hashCheck lastError s.downloadLinksTable d L (computeHashForUrl L) = [] := by
    simp [hashCheck, hh]
  have h3 : onCreated computeHashForUrl lastError ⟨d, L⟩ s
      = (⟨assign s.pendingDownloads d ⟨L, computeHashForUrl L⟩, s.downloadLinksTable⟩, []) := by
    simp only [onCreated, h1, h2, List.append_nil]
  refine ⟨h1, h2, h3, ?_⟩
  rw [run_createdChain, h3]
  rfl

/-- Witness of C10: the empty table. -/
theorem no_false_flag_witness :
    (∀ entry ∈ objectValues (Storage.mk [] []).downloadLinksTable,
        entry.url ≠ "https://x/a.bin")
      ∧ (∀ entry ∈ objectValues (Storage.mk [] []).downloadLinksTable,
        entry.hash ≠ (fun u : String => "#" ++ u) "https://x/a.bin")
      ∧ onCreated (fun u => "#" ++ u) false ⟨1, "https://x/a.bin"⟩ (Storage.mk [] [])
        = (⟨[(1, ⟨"https://x/a.bin", "#https://x/a.bin"⟩)], []⟩, []) :=
  ⟨by simp [objectValues], by simp [objectValues],
    (no_false_flag (fun u => "#" ++ u) false (Storage.mk [] []) 1 "https://x/a.bin"
      (by simp [objectValues]) (by simp [objectValues])).2.2.1⟩

/-! ## What `onCreated` writes -/

/-- C5. For every storage, download id `d`, locator `L` and outcome of the pause command,
`onCreated` for `(d, L)` leaves `pendingDownloads` mapping `d` to
`{ url: L, hash: hash(L) }` with every other id as before, and `downloadLinksTable` as it
was. The storage written is the same whether the pause failed or succeeded, it is there
before the callback of the pause command has run, and `pendingDownloads` is the same
whatever `downloadLinksTable` holds, that is, flagged or not. -/
theorem created_always_writes_pending (computeHashForUrl : String → String)
    (lastError : Bool) (s : Storage) (d : DownloadId) (L : String) :
    lookupKey (onCreated computeHashForUrl lastError ⟨d, L⟩ s).1.pendingDownloads d
        = some ⟨L, computeHashForUrl L⟩
      ∧ (∀ k, k ≠ d →
          lookupKey (onCreated computeHashForUrl lastError ⟨d, L⟩ s).1.pendingDownloads k
            = lookupKey s.pendingDownloads k)
      ∧ (onCreated computeHashForUrl lastError ⟨d, L⟩ s).1.downloadLinksTable
        = s.downloadLinksTable
      ∧ (onCreated computeHashForUrl true ⟨d, L⟩ s).1
        = (onCreated computeHashForUrl false ⟨d, L⟩ s).1
      ∧ (∀ (lastError' : Bool) (table' : Table),
          (onCreated computeHashForUrl lastError' ⟨d, L⟩
            ⟨s.pendingDownloads, table'⟩).1.pendingDownloads
          = (onCreated computeHashForUrl lastError ⟨d, L⟩ s).1.pendingDownloads)
      ∧ (run computeHashForUrl (idle s []) (createdChain ⟨d, L⟩ lastError)).storage
        = (onCreated computeHashForUrl lastError ⟨d, L⟩ s).1
      ∧ (run computeHashForUrl (idle s [])
          [Action.created ⟨d, L⟩, Action.hashResolved, Action.storageServed,
           Action.storageServed, Action.storageServed]).storage
        = (onCreated computeHashForUrl lastError ⟨d, L⟩ s).1 := by
  refine ⟨?_, ?_, rfl, rfl, ?_, ?_, ?_⟩
  · exact lookupKey_assign_self _ _ _
  · intro k hk
    exact lookupKey_assign_ne _ _ _ _ hk
  · intro lastError' table'
    rfl
  · rw [run_createdChain]
    rfl
  · cases hu : urlExists s.downloadLinksTable L <;>
    cases hh : hashExists s.downloadLinksTable (computeHashForUrl L) <;>
    simp [run, idle, step, serve, onCreated, hu, hh]

/-! ## State changes that do nothing -/

/-- C7. An `onChanged` event for an id with no entry in `pendingDownloads` (whatever the
state), or with no `state` in the delta, or with a current state that is neither
"complete" nor "interrupted", changes neither `pendingDownloads` nor `downloadLinksTable`
and sends no command; the listener is a total function, so nothing is raised. On the event
loop its chain of callbacks leaves the configuration as it found it. In particular a second
`onChanged` for `(d, "complete")` right after a first one changes nothing. -/
theorem changed_noop (computeHashForUrl : String → String) :
    (∀ (downloadDelta : DownloadDelta) (s : Storage) (trace : List Effect),
        (lookupKey s.pendingDownloads downloadDelta.id = none
          ∨ downloadDelta.state = none
          ∨ ∃ state, downloadDelta.state = some state
              ∧ state.current ≠ some "complete" ∧ state.current ≠ some "interrupted") →
        onChanged downloadDelta s = (s, [])
          ∧ run computeHashForUrl (idle s trace) (changedChain downloadDelta) = idle s trace)
      ∧ (∀ (d : DownloadId) (previous previous' : Option String) (s : Storage),
          onChanged ⟨d, some ⟨previous', some "complete"⟩⟩
              (onChanged ⟨d, some ⟨previous, some "complete"⟩⟩ s).1
            = ((onChanged ⟨d, some ⟨previous, some "complete"⟩⟩ s).1, [])) := by
  have hnoop : ∀ (downloadDelta : DownloadDelta) (s : Storage),
      (lookupKey s.pendingDownloads downloadDelta.id = none
        ∨ downloadDelta.state = none
        ∨ ∃ state, downloadDelta.state = some state
            ∧ state.current ≠ some "complete" ∧ state.current ≠ some "interrupted") →
      onChanged downloadDelta s = (s, []) := by
    intro downloadDelta s h
    obtain ⟨d, state⟩ := downloadDelta
    rcases h with h | h | ⟨st, h, h1, h2⟩
    · cases state with
      | none => rfl
      | some st =>
        simp only at h
        simp only [onChanged, h]
        split_ifs <;> rfl
    · simp only at h
      subst h
      rfl
    · simp only at h
      subst h
      simp [onChanged, h1, h2]
  refine ⟨?_, ?_⟩
  · intro downloadDelta s trace h
    refine ⟨hnoop downloadDelta s h, ?_⟩
    rw [run_changedChain, hnoop downloadDelta s h]
    simp
  · intro d previous previous' s
    apply hnoop
    left
    cases hl : lookupKey s.pendingDownloads d with
    | none => simp [onChanged, hl]
    | some e => simp [onChanged, hl, lookupKey_deleteKey_self]

/-- Witness of C7: a "complete" event for download 5 on the empty storage. -/
theorem changed_noop_witness :
    onChanged ⟨5, some ⟨some "in_progress", some "complete"⟩⟩ (Storage.mk [] [])
      = (Storage.mk [] [], []) :=
  ((changed_noop (fun u => "#" ++ u)).1 ⟨5, some ⟨some "in_progress", some "complete"⟩⟩
    (Storage.mk [] []) [] (Or.inl rfl)).1

/-! ## Messages of the content script -/

/-- C9. For every download id `d` and storage, `onMessage` with action `continueDownload`
sends exactly one command, `resume(d)`; with action `cancelDownload` exactly one command,
`cancel(d)`; with any other action, or none, no command; and in each case the storage is
left as it was. On the event loop a message adds these effects to the trace and touches
nothing else. -/
theorem message_commands (computeHashForUrl : String → String) :
    (∀ (d : DownloadId) (s : Storage),
        onMessage ⟨some "continueDownload", d⟩ s = (s, [Effect.resume d]))
      ∧ (∀ (d : DownloadId) (s : Storage),
        onMessage ⟨some "cancelDownload", d⟩ s = (s, [Effect.cancel d]))
      ∧ (∀ (action : Option String) (d : DownloadId) (s : Storage),
        action ≠ some "cancelDownload" → action ≠ some "continueDownload" →
        onMessage ⟨action, d⟩ s = (s, []))
      ∧ (∀ (message : Message) (s : Storage), (onMessage message s).1 = s)
      ∧ (∀ (message : Message) (s : Storage) (trace : List Effect),
        run computeHashForUrl (idle s trace) [Action.message message]
          = idle s (trace ++ (onMessage message s).2)) := by
  refine ⟨?_, ?_, ?_, ?_, ?_⟩
  · intro d s
    simp [onMessage]
  · intro d s
    simp [onMessage]
  · intro action d s h1 h2
    simp [onMessage, h1, h2]
  · intro message s
    simp only [onMessage]
    split_ifs <;> rfl
  · intro message s trace
    simp [run, idle, step]

/-- Witness of C9: a message with an action the listener does not know. -/
theorem message_commands_witness :
    onMessage ⟨some "pauseDownload", 4⟩ (Storage.mk [] []) = (Storage.mk [] [], []) :=
  (message_commands (fun u => "#" ++ u)).2.2.1 (some "pauseDownload") 4 (Storage.mk [] [])
    (by decide) (by decide)

/-! ## Entries of `downloadLinksTable` -/

/-- C8, as stated, fails. Download 7 from "https://x/a.bin" is created and completes, then a
download with the same id 7 from "https://x/b.bin" is created: the storage holds
`7 -> a.bin` in `downloadLinksTable` and `7 -> b.bin` in `pendingDownloads`. The event
`onChanged` for `(7, "complete")` writes `downloadLinksTable[7]` again (line 167), and the
entry `7 -> a.bin` is no longer in the table. -/
theorem complete_overwrites_entry :
    (reconcile (fun u => "#" ++ u) (Event.created ⟨7, "https://x/b.bin"⟩ false)
        (reconcile (fun u => "#" ++ u) (Event.changed ⟨7, some ⟨none, some "complete"⟩⟩)
          (reconcile (fun u => "#" ++ u) (Event.created ⟨7, "https://x/a.bin"⟩ false)
            (Storage.mk [] [])).1).1).1
        = Storage.mk [(7, ⟨"https://x/b.bin", "#https://x/b.bin"⟩)]
            [(7, ⟨"https://x/a.bin", "#https://x/a.bin"⟩)]
      ∧ lookupKey (Storage.mk [(7, ⟨"https://x/b.bin", "#https://x/b.bin"⟩)]
            [(7, ⟨"https://x/a.bin", "#https://x/a.bin"⟩)]).downloadLinksTable 7
        = some ⟨"https://x/a.bin", "#https://x/a.bin"⟩
      ∧ lookupKey (reconcile (fun u => "#" ++ u)
            (Event.changed ⟨7, some ⟨none, some "complete"⟩⟩)
            (Storage.mk [(7, ⟨"https://x/b.bin", "#https://x/b.bin"⟩)]
              [(7, ⟨"https://x/a.bin", "#https://x/a.bin"⟩)])).1.downloadLinksTable 7
        = some ⟨"https://x/b.bin", "#https://x/b.bin"⟩
      ∧ lookupKey (reconcile (fun u => "#" ++ u)
            (Event.changed ⟨7, some ⟨none, some "complete"⟩⟩)
            (Storage.mk [(7, ⟨"https://x/b.bin", "#https://x/b.bin"⟩)]
              [(7, ⟨"https://x/a.bin", "#https://x/a.bin"⟩)])).1.downloadLinksTable 7
        ≠ some ⟨"https://x/a.bin", "#https://x/a.bin"⟩ := by
  decide

/-- C8, amended. For every storage and every single event run to its end (a created
download, a state change with any value, a message), an id `k` with an entry in
`downloadLinksTable` before the event has an entry after it. The entry is the same one,
unless the event is `onChanged` for `(k, "complete")` and `k` has an entry in
`pendingDownloads`: then the entry of `k` is the one `pendingDownloads` held. -/
theorem links_entries_kept (computeHashForUrl : String → String) (event : Event)
    (s : Storage) (k : DownloadId) (e : Entry)
    (hk : lookupKey s.downloadLinksTable k = some e) :
    (lookupKey (reconcile computeHashForUrl event s).1.downloadLinksTable k).isSome = true
      ∧ ((∀ previous, event = Event.changed ⟨k, some ⟨previous, some "complete"⟩⟩ →
            lookupKey s.pendingDownloads k = none) →
          lookupKey (reconcile computeHashForUrl event s).1.downloadLinksTable k = some e)
      ∧ (∀ previous downloadData,
          event = Event.changed ⟨k, some ⟨previous, some "complete"⟩⟩ →
          lookupKey s.pendingDownloads k = some downloadData →
          lookupKey (reconcile computeHashForUrl event s).1.downloadLinksTable k
            = some downloadData) := by
  have hrepl : ∀ previous downloadData,
      event = Event.changed ⟨k, some ⟨previous, some "complete"⟩⟩ →
      lookupKey s.pendingDownloads k = some downloadData →
      lookupKey (reconcile computeHashForUrl event s).1.downloadLinksTable k
        = some downloadData := by
    intro previous downloadData hev hpend
    subst hev
    simp [reconcile, onChanged, hpend, lookupKey_assign_self]
  have hkeep : (∀ previous, event = Event.changed ⟨k, some ⟨previous, some "complete"⟩⟩ →
        lookupKey s.pendingDownloads k = none) →
      lookupKey (reconcile computeHashForUrl event s).1.downloadLinksTable k = some e := by
    intro hnot
    cases event with
    | created downloadItem lastError => exact hk
    | message message =>
      simp only [reconcile, onMessage]
      split_ifs <;> exact hk
    | changed downloadDelta =>
      obtain ⟨d, state⟩ := downloadDelta
      cases state with
      | none => exact hk
      | some st =>
        obtain ⟨previous, current⟩ := st
        by_cases h1 : current = some "complete"
        · subst h1
          cases hl : lookupKey s.pendingDownloads d with
          | none => simpa [reconcile, onChanged, hl] using hk
          | some downloadData =>
            have hne : k ≠ d := by
              intro hkd
              subst hkd
              have := hnot previous rfl
              rw [hl] at this
              exact Option.noConfusion this
            simpa [reconcile, onChanged, hl, lookupKey_assign_ne _ _ _ _ hne] using hk
        · by_cases h2 : current = some "interrupted"
          · subst h2
            cases hl : lookupKey s.pendingDownloads d <;>
            simpa [reconcile, onChanged, hl] using hk
          · simpa [reconcile, onChanged, h1, h2] using hk
  refine ⟨?_, hkeep, hrepl⟩
  by_cases hex : ∃ previous, event = Event.changed ⟨k, some ⟨previous, some "complete"⟩⟩
      ∧ (lookupKey s.pendingDownloads k).isSome = true
  · obtain ⟨previous, hev, hsome⟩ := hex
    obtain ⟨downloadData, hd⟩ := Option.isSome_iff_exists.1 hsome
    rw [hrepl previous downloadData hev hd]
    rfl
  · rw [hkeep ?_]
    · rfl
    · intro previous hev
      cases hl : lookupKey s.pendingDownloads k with
      | none => rfl
      | some downloadData =>
        exact absurd ⟨previous, hev, by simp [hl]⟩ hex

/-- Witness of C8 amended: an entry under id 1, and download 2 completes. -/
theorem links_entries_kept_witness :
    lookupKey (Storage.mk [(2, ⟨"https://x/b.bin", "#https://x/b.bin"⟩)]
        [(1, ⟨"https://x/a.bin", "#https://x/a.bin"⟩)]).downloadLinksTable 1
        = some ⟨"https://x/a.bin", "#https://x/a.bin"⟩
      ∧ lookupKey (reconcile (fun u => "#" ++ u)
          (Event.changed ⟨2, some ⟨none, some "complete"⟩⟩)
          (Storage.mk [(2, ⟨"https://x/b.bin", "#https://x/b.bin"⟩)]
            [(1, ⟨"https://x/a.bin", "#https://x/a.bin"⟩)])).1.downloadLinksTable 1
        = some ⟨"https://x/a.bin", "#https://x/a.bin"⟩ :=
  ⟨rfl,
    (links_entries_kept (fun u => "#" ++ u) (Event.changed ⟨2, some ⟨none, some "complete"⟩⟩)
      (Storage.mk [(2, ⟨"https://x/b.bin", "#https://x/b.bin"⟩)]
        [(1, ⟨"https://x/a.bin", "#https://x/a.bin"⟩)]) 1
      ⟨"https://x/a.bin", "#https://x/a.bin"⟩ rfl).2.1
      (fun previous hev => by
        have h := congrArg (fun ev => match ev with
          | Event.changed dd => dd.id
          | _ => 0) hev
        simp at h)⟩

/-! ## A state change that arrives while `onCreated` is still running -/

/-- C6, as stated, fails. On the empty storage download 1 from "https://x/a.bin" is created
and, while its hash is still being computed, `onChanged` for `(1, "complete")` fires. Its
read of `pendingDownloads` (line 152) is served before `onCreated` has written anything,
finds no entry and stops; `onCreated` then writes the entry. At the end
`pendingDownloads` still holds download 1 and `downloadLinksTable` is empty, whereas the
creation run to its end followed by the state change gives an empty `pendingDownloads` and
the entry in `downloadLinksTable`. -/
theorem complete_during_hash_is_lost :
    run (fun u => "#" ++ u) (idle (Storage.mk [] []) [])
        (changedDuringCreated ⟨1, "https://x/a.bin"⟩
          ⟨1, some ⟨some "in_progress", some "complete"⟩⟩ false 0)
        = idle (Storage.mk [(1, ⟨"https://x/a.bin", "#https://x/a.bin"⟩)] []) []
      ∧ (onChanged ⟨1, some ⟨some "in_progress", some "complete"⟩⟩
          (onCreated (fun u => "#" ++ u) false ⟨1, "https://x/a.bin"⟩ (Storage.mk [] [])).1).1
        = Storage.mk [] [(1, ⟨"https://x/a.bin", "#https://x/a.bin"⟩)]
      ∧ (run (fun u => "#" ++ u) (idle (Storage.mk [] []) [])
          (changedDuringCreated ⟨1, "https://x/a.bin"⟩
            ⟨1, some ⟨some "in_progress", some "complete"⟩⟩ false 0)).storage
        ≠ (onChanged ⟨1, some ⟨some "in_progress", some "complete"⟩⟩
          (onCreated (fun u => "#" ++ u) false ⟨1, "https://x/a.bin"⟩
            (Storage.mk [] [])).1).1 := by
  decide

/-- C6, amended. Let `d` have no entry in `pendingDownloads`, and let `onChanged` for
`(d, "complete")` or `(d, "interrupted")` fire after `k` turns of the running chain of
`onCreated` for `(d, L)`, the event loop then running until nothing is in flight. With
`k ≤ 2` (the hash still computing, or `onCreated` still reading the storage: its write of
`pendingDownloads` is not requested yet) the state change is applied at once, finds no entry
for `d` and does nothing: at the end `pendingDownloads` maps `d` to
`{ url: L, hash: hash(L) }` and `downloadLinksTable` is as it was. With `3 ≤ k` (the write
is requested, so it is served before the read of `onChanged`) the end is the one of the
creation run to its end followed by the state change. -/
theorem state_change_during_creation (computeHashForUrl : String → String)
    (lastError : Bool) (s : Storage) (d : DownloadId) (L : String)
    (previous : Option String) (current : String)
    (hcur : current = "complete" ∨ current = "interrupted")
    (hp : lookupKey s.pendingDownloads d = none) :
    (∀ k, k ≤ 2 →
        run computeHashForUrl (idle s [])
            (changedDuringCreated ⟨d, L⟩ ⟨d, some ⟨previous, some current⟩⟩ lastError k)
          = idle ⟨assign s.pendingDownloads d ⟨L, computeHashForUrl L⟩, s.downloadLinksTable⟩
              (onCreated computeHashForUrl lastError ⟨d, L⟩ s).2)
      ∧ (∀ k, 3 ≤ k →
        run computeHashForUrl (idle s [])
            (changedDuringCreated ⟨d, L⟩ ⟨d, some ⟨previous, some current⟩⟩ lastError k)
          = idle (onChanged ⟨d, some ⟨previous, some current⟩⟩
                (onCreated computeHashForUrl lastError ⟨d, L⟩ s).1).1
              (onCreated computeHashForUrl lastError ⟨d, L⟩ s).2) := by
  constructor
  · intro k hk
    interval_cases k <;>
    rcases hcur with rfl | rfl <;>
    cases hu : urlExists s.downloadLinksTable L <;>
    cases hh : hashExists s.downloadLinksTable (computeHashForUrl L) <;>
    simp [run, changedDuringCreated, idle, step, serve, onCreated, urlCheck, hashCheck,
      hu, hh, hp]
  · intro k hk
    have hchain : ∀ (item : DownloadItem) (delta : DownloadDelta),
        changedDuringCreated item delta lastError k
          = changedDuringCreated item delta lastError 3
        ∨ changedDuringCreated item delta lastError k
          = changedDuringCreated item delta lastError 4 := by
      intro item delta
      rcases Nat.lt_or_ge k 4 with h4 | h4
      · left
        have : k = 3 := by omega
        rw [this]
      · right
        simp only [changedDuringCreated]
        rw [List.take_of_length_le (by simpa using h4),
          List.drop_of_length_le (by simpa using h4)]
        rfl
    rcases hchain ⟨d, L⟩ ⟨d, some ⟨previous, some current⟩⟩ with h | h <;>
    rw [h] <;>
    rcases hcur with rfl | rfl <;>
    cases hu : urlExists s.downloadLinksTable L <;>
    cases hh : hashExists s.downloadLinksTable (computeHashForUrl L) <;>
    simp [run, changedDuringCreated, idle, step, serve, onCreated, onChanged, urlCheck,
      hashCheck, hu, hh, lookupKey_assign_self]

/-- Witness of C6 amended: an "interrupted" event for download 1 that fires after the hash
is resolved and before `onCreated` has read the storage. -/
theorem state_change_during_creation_witness :
    ("interrupted" = "complete" ∨ "interrupted" = "interrupted")
      ∧ lookupKey (Storage.mk [] []).pendingDownloads 1 = none
      ∧ run (fun u => "#" ++ u) (idle (Storage.mk [] []) [])
          (changedDuringCreated ⟨1, "https://x/a.bin"⟩
            ⟨1, some ⟨none, some "interrupted"⟩⟩ false 1)
        = idle (Storage.mk [(1, ⟨"https://x/a.bin", "#https://x/a.bin"⟩)] []) [] :=
  ⟨Or.inr rfl, rfl,
    (state_change_during_creation (fun u => "#" ++ u) false (Storage.mk [] []) 1
      "https://x/a.bin" none "interrupted" (Or.inr rfl) rfl).1 1 (by decide)⟩

end Background
